import Mathlib

/-!
Verification of the vtpack archive reader.

The development shallowly embeds the reader: a byte source is a `List Nat`
read at absolute positions (little-endian multi-byte integers), the
layout decoder (`decodeRawFile`) mirrors the `VtPackRawFile` field-by-field
read including the version-dependent field widths and the seek to the
string pool, the path resolver (`processEntries` / `resolveEntry`) mirrors
`VtPackFile::process_entries` (slice-indexing and unwrap panics are
modelled as the absence of a result), and `vtPackNew` mirrors
`VtPackFile::new`.  Extraction's per-file payload read is modelled by
`saveEntryFileContent`.
-/

/-! ## Byte-source primitives -/

/-- Read `n` bytes at absolute position `pos`; `none` models an
unexpected-end-of-file failure of an exact-size read. Reading zero bytes
always succeeds, matching an exact read of an empty buffer. -/
def readBytes (s : List Nat) (pos n : Nat) : Option (List Nat) :=
  let r := (s.drop pos).take n
  if r.length = n then some r else none

/-- Little-endian value of a byte list. -/
def leVal (bs : List Nat) : Nat :=
  bs.foldr (fun b acc => b + 256 * acc) 0

/-- Read a little-endian 32-bit integer. -/
def readU32 (s : List Nat) (pos : Nat) : Option Nat :=
  (readBytes s pos 4).map leVal

/-- Read a little-endian 64-bit integer. -/
def readU64 (s : List Nat) (pos : Nat) : Option Nat :=
  (readBytes s pos 8).map leVal

/-! ## Data model (from src/vtpack/src/lib.rs) -/

/-- `VtPackVersion`: enum with u32 representation codes 1 and 2. -/
inductive VtPackVersion where
  | Ver1
  | Ver2
deriving DecidableEq

/-- `VtPackStringTable`: a 32-bit size then that many raw bytes. -/
structure VtPackStringTable where
  table_size : Nat
  table_data : List Nat
deriving DecidableEq

/-- `VtPackRawEntryHeader`: one fixed-size entry record, fields in source order. -/
structure VtPackRawEntryHeader where
  path_name_str_table_offset : Nat
  path_dir_str_table_offset : Nat
  unk1 : Nat
  file_size : Nat
  unk2 : Nat
  file_data_abs_offset : Nat
  unk3 : Nat
  unk4 : Nat
deriving DecidableEq

/-- `INVALID_STRING_TABLE_OFFSET`: the u32::MAX sentinel meaning "no string". -/
def INVALID_STRING_TABLE_OFFSET : Nat := 4294967295

/-- `VtPackProcessedEntry`: the resolved, user-facing view of one entry.
The path is a list of Unicode scalar values (the Rust `String`). -/
structure VtPackProcessedEntry where
  is_file : Bool
  path : List Nat
  file_size : Nat
  file_data_abs_offset : Nat
deriving DecidableEq

/-- Scalar header fields of `VtPackRawFile`, in source order. A field
guarded by a `#[br(if(...))]` attribute for the other version is absent
from the byte stream and keeps its default value 0. -/
structure VtPackHeaderFields where
  version : VtPackVersion
  unk1 : Nat
  unk2 : Nat
  unk3_v1 : Nat
  unk3_v2 : Nat
  unk4_v1 : Nat
  unk4_v2 : Nat
  entry_count : Nat
  str_table_abs_offset_v1 : Nat
  str_table_abs_offset_v2 : Nat
deriving DecidableEq

/-- `VtPackRawFile`: the raw decoded archive. -/
structure VtPackRawFile where
  version : VtPackVersion
  unk1 : Nat
  unk2 : Nat
  unk3_v1 : Nat
  unk3_v2 : Nat
  unk4_v1 : Nat
  unk4_v2 : Nat
  entry_count : Nat
  str_table_abs_offset_v1 : Nat
  str_table_abs_offset_v2 : Nat
  str_table : VtPackStringTable
  entries : List VtPackRawEntryHeader
deriving DecidableEq

/-- Decode failures of the raw layout read (binrw errors in the source). -/
inductive DecodeError where
  | malformedHeader
  | unsupportedVersion
  | truncatedHeader
  | truncatedPool
  | truncatedEntryTable
deriving DecidableEq

/-! ## Layout decoder -/

/-- The 6-byte magic signature b"vtPack". -/
def magicBytes : List Nat := [118, 116, 80, 97, 99, 107]

/-- Byte width of the version-dependent fields. -/
def verWidth : VtPackVersion → Nat
  | VtPackVersion.Ver1 => 4
  | VtPackVersion.Ver2 => 8

/-- Read one version-width integer (u32 for V1, u64 for V2). -/
def readVerInt (v : VtPackVersion) (s : List Nat) (pos : Nat) : Option Nat :=
  match v with
  | VtPackVersion.Ver1 => readU32 s pos
  | VtPackVersion.Ver2 => readU64 s pos

/-- Decode the scalar header fields after the version tag, for a known
version. Field positions: unk1 at 10, unk2 at 14, then two version-width
fields, the 32-bit entry count, and the version-width string-pool offset.
The inactive version's fields are structurally absent and recorded as 0. -/
def decodeHeaderWith (ver : VtPackVersion) (s : List Nat) : Except DecodeError VtPackHeaderFields :=
  let w := verWidth ver
  match readU32 s 10, readU32 s 14, readVerInt ver s 18, readVerInt ver s (18 + w),
        readU32 s (18 + 2 * w), readVerInt ver s (22 + 2 * w) with
  | some u1, some u2, some u3, some u4, some ec, some st =>
    match ver with
    | VtPackVersion.Ver1 =>
      Except.ok ⟨VtPackVersion.Ver1, u1, u2, u3, 0, u4, 0, ec, st, 0⟩
    | VtPackVersion.Ver2 =>
      Except.ok ⟨VtPackVersion.Ver2, u1, u2, 0, u3, 0, u4, ec, 0, st⟩
  | _, _, _, _, _, _ => Except.error DecodeError.truncatedHeader

/-- Decode the fixed header: magic at 0, version tag at 6, then the
version-dependent scalar fields. -/
def decodeHeader (s : List Nat) : Except DecodeError VtPackHeaderFields :=
  match readBytes s 0 6 with
  | none => Except.error DecodeError.truncatedHeader
  | some m =>
    if m = magicBytes then
      match readU32 s 6 with
      | none => Except.error DecodeError.truncatedHeader
      | some vcode =>
        if vcode = 1 then decodeHeaderWith VtPackVersion.Ver1 s
        else if vcode = 2 then decodeHeaderWith VtPackVersion.Ver2 s
        else Except.error DecodeError.unsupportedVersion
    else Except.error DecodeError.malformedHeader

/-- Resolved string-pool position:
`str_table_abs_offset_v2.max(str_table_abs_offset_v1 as u64)`. -/
def strTablePos (h : VtPackHeaderFields) : Nat :=
  max h.str_table_abs_offset_v2 h.str_table_abs_offset_v1

/-- Read the string table at `pos`: a 32-bit length then that many bytes.
Returns the table together with the stream position after it. -/
def readStringTable (s : List Nat) (pos : Nat) : Option (VtPackStringTable × Nat) :=
  match readU32 s pos with
  | none => none
  | some sz =>
    match readBytes s (pos + 4) sz with
    | none => none
    | some data => some (⟨sz, data⟩, pos + 4 + sz)

/-- Read one 44-byte raw entry record at `pos`. -/
def readRawEntry (s : List Nat) (pos : Nat) : Option VtPackRawEntryHeader :=
  match readU32 s pos, readU32 s (pos + 4), readU32 s (pos + 8), readU64 s (pos + 12),
        readU64 s (pos + 20), readU64 s (pos + 28), readU32 s (pos + 36), readU32 s (pos + 40) with
  | some nameOff, some dirOff, some u1, some fsize, some u2, some fdo, some u3, some u4 =>
    some ⟨nameOff, dirOff, u1, fsize, u2, fdo, u3, u4⟩
  | _, _, _, _, _, _, _, _ => none

/-- Read `n` consecutive raw entry records starting at `pos`. -/
def readRawEntries (s : List Nat) (pos : Nat) : Nat → Option (List VtPackRawEntryHeader)
  | 0 => some []
  | n + 1 =>
    match readRawEntry s pos with
    | none => none
    | some e => (readRawEntries s (pos + 44) n).map (fun es => e :: es)

/-- Decode a whole `VtPackRawFile` from position 0: header, then seek to
the resolved string-pool position and read the pool, then read
`entry_count` entry records from the position where the pool read left
the cursor. -/
def decodeRawFile (s : List Nat) : Except DecodeError VtPackRawFile :=
  match decodeHeader s with
  | Except.error e => Except.error e
  | Except.ok h =>
    match readStringTable s (strTablePos h) with
    | none => Except.error DecodeError.truncatedPool
    | some (st, entriesPos) =>
      match readRawEntries s entriesPos h.entry_count with
      | none => Except.error DecodeError.truncatedEntryTable
      | some es =>
        Except.ok ⟨h.version, h.unk1, h.unk2, h.unk3_v1, h.unk3_v2, h.unk4_v1, h.unk4_v2,
                   h.entry_count, h.str_table_abs_offset_v1, h.str_table_abs_offset_v2, st, es⟩

/-! ## Path resolver -/

/-- Model of `&table_data[off..]`: `none` is the slice-bounds panic when
`off` exceeds the length. -/
def sliceFrom (l : List Nat) (off : Nat) : Option (List Nat) :=
  if off ≤ l.length then some (l.drop off) else none

/-- Model of `CStr::from_bytes_until_nul(...).unwrap()`: the bytes before
the first NUL; `none` is the unwrap panic when no NUL exists. -/
def bytesUntilNul (l : List Nat) : Option (List Nat) :=
  if 0 ∈ l then some (l.takeWhile (fun b => b ≠ 0)) else none

/-- The Unicode replacement character U+FFFD. -/
def replacementChar : Nat := 65533

/-- Lower continuation bound for a 3-byte lead. -/
def cont3Lo (b : Nat) : Nat := if b = 224 then 160 else 128

/-- Upper continuation bound for a 3-byte lead (excludes surrogates). -/
def cont3Hi (b : Nat) : Nat := if b = 237 then 159 else 191

/-- Lower continuation bound for a 4-byte lead. -/
def cont4Lo (b : Nat) : Nat := if b = 240 then 144 else 128

/-- Upper continuation bound for a 4-byte lead. -/
def cont4Hi (b : Nat) : Nat := if b = 244 then 143 else 191

/-- Lossy UTF-8 decoding to Unicode scalar values, as performed by
`Cow::to_string_lossy`: each maximal ill-formed subsequence becomes one
U+FFFD replacement character. -/
def utf8DecodeLossy : List Nat → List Nat
  | [] => []
  | b :: rest =>
    if b < 128 then b :: utf8DecodeLossy rest
    else if 194 ≤ b ∧ b ≤ 223 then
      match rest with
      | [] => [replacementChar]
      | b2 :: rest2 =>
        if 128 ≤ b2 ∧ b2 ≤ 191 then
          (b % 32 * 64 + b2 % 64) :: utf8DecodeLossy rest2
        else replacementChar :: utf8DecodeLossy (b2 :: rest2)
    else if 224 ≤ b ∧ b ≤ 239 then
      match rest with
      | [] => [replacementChar]
      | b2 :: rest2 =>
        if cont3Lo b ≤ b2 ∧ b2 ≤ cont3Hi b then
          match rest2 with
          | [] => [replacementChar]
          | b3 :: rest3 =>
            if 128 ≤ b3 ∧ b3 ≤ 191 then
              (b % 16 * 4096 + b2 % 64 * 64 + b3 % 64) :: utf8DecodeLossy rest3
            else replacementChar :: utf8DecodeLossy (b3 :: rest3)
        else replacementChar :: utf8DecodeLossy (b2 :: rest2)
    else if 240 ≤ b ∧ b ≤ 244 then
      match rest with
      | [] => [replacementChar]
      | b2 :: rest2 =>
        if cont4Lo b ≤ b2 ∧ b2 ≤ cont4Hi b then
          match rest2 with
          | [] => [replacementChar]
          | b3 :: rest3 =>
            if 128 ≤ b3 ∧ b3 ≤ 191 then
              match rest3 with
              | [] => [replacementChar]
              | b4 :: rest4 =>
                if 128 ≤ b4 ∧ b4 ≤ 191 then
                  (b % 8 * 262144 + b2 % 64 * 4096 + b3 % 64 * 64 + b4 % 64) :: utf8DecodeLossy rest4
                else replacementChar :: utf8DecodeLossy (b4 :: rest4)
            else replacementChar :: utf8DecodeLossy (b3 :: rest3)
        else replacementChar :: utf8DecodeLossy (b2 :: rest2)
    else replacementChar :: utf8DecodeLossy rest

/-- Resolve one string-table reference: the sentinel yields the empty
string; otherwise slice the pool at the offset, scan to the NUL, and
decode lossily. `none` models the panics of the source. -/
def resolveStr (table_data : List Nat) (off : Nat) : Option (List Nat) :=
  if off = INVALID_STRING_TABLE_OFFSET then some []
  else
    match sliceFrom table_data off with
    | none => none
    | some tailBytes =>
      match bytesUntilNul tailBytes with
      | none => none
      | some cbytes => some (utf8DecodeLossy cbytes)

/-- The backslash scalar value, the separator used by the raw format. -/
def backslash : Nat := 92

/-- Model of `.replace("\x5c\x5c", "\x5c")`: collapse doubled backslashes,
scanning left to right without rescanning the replacement. -/
def collapseBS : List Nat → List Nat
  | [] => []
  | c :: rest =>
    match rest with
    | [] => [c]
    | c2 :: rest2 =>
      if c = backslash ∧ c2 = backslash then backslash :: collapseBS rest2
      else c :: collapseBS (c2 :: rest2)

/-- Model of `.replace(from, to)` for one-character patterns. -/
def replaceChar (a b : Nat) (l : List Nat) : List Nat :=
  l.map (fun c => if c = a then b else c)

/-- Model of `while path.starts_with(sep) { path.remove(0); }`. -/
def stripLeadingSep (sep : Nat) (l : List Nat) : List Nat :=
  l.dropWhile (fun c => c = sep)

/-- The path normalization of `process_entries`: join directory and name
with a backslash, collapse doubled backslashes, replace backslashes with
the platform separator `sep`, then strip all leading separators. -/
def joinPath (sep : Nat) (dir name : List Nat) : List Nat :=
  stripLeadingSep sep (replaceChar backslash sep (collapseBS (dir ++ backslash :: name)))

/-- Resolve one raw entry to a processed entry (`none` models a panic):
resolve the two strings, normalize the joined path, classify by the
file-data offset, and copy size and offset verbatim. -/
def resolveEntry (sep : Nat) (table_data : List Nat) (e : VtPackRawEntryHeader) :
    Option VtPackProcessedEntry :=
  match resolveStr table_data e.path_dir_str_table_offset,
        resolveStr table_data e.path_name_str_table_offset with
  | some dirStr, some nameStr =>
    some { is_file := e.file_data_abs_offset ≠ 0,
           path := joinPath sep dirStr nameStr,
           file_size := e.file_size,
           file_data_abs_offset := e.file_data_abs_offset }
  | _, _ => none

/-- `process_entries` over the whole raw entry list, in table order. -/
def processEntries (sep : Nat) (table_data : List Nat) :
    List VtPackRawEntryHeader → Option (List VtPackProcessedEntry)
  | [] => some []
  | e :: rest =>
    match resolveEntry sep table_data e with
    | none => none
    | some pe => (processEntries sep table_data rest).map (fun pes => pe :: pes)

/-! ## Archive handle -/

/-- `VtPackFile`: the raw data plus the processed entry list. -/
structure VtPackFileModel where
  raw : VtPackRawFile
  p_entries : List VtPackProcessedEntry
deriving DecidableEq

/-- Outcome of `VtPackFile::new`: a decoded archive, a propagated binrw
error, or a panic raised while processing entries. -/
inductive VtPackNewResult where
  | ok (file : VtPackFileModel)
  | err (e : DecodeError)
  | panicked
deriving DecidableEq

/-- `VtPackFile::new`: decode the raw file, then process every entry. -/
def vtPackNew (sep : Nat) (s : List Nat) : VtPackNewResult :=
  match decodeRawFile s with
  | Except.error e => VtPackNewResult.err e
  | Except.ok raw =>
    match processEntries sep raw.str_table.table_data raw.entries with
    | none => VtPackNewResult.panicked
    | some pes => VtPackNewResult.ok ⟨raw, pes⟩

/-! ## Extractor payload read -/

/-- Model of the single `reader.read(&mut file_data)` call in
`save_entry` on a byte source: it yields the bytes available at the
position, at most the requested count, without failing on a short read. -/
def seekReadOnce (s : List Nat) (off n : Nat) : List Nat :=
  (s.drop off).take n

/-- The bytes `save_entry` writes to the destination file: the buffer is
allocated as `file_size` zero bytes and the single read fills only its
prefix, so a short read leaves trailing zeros. -/
def saveEntryFileContent (s : List Nat) (e : VtPackProcessedEntry) : List Nat :=
  let data := seekReadOnce s e.file_data_abs_offset e.file_size
  data ++ List.replicate (e.file_size - data.length) 0

/-! ## Reference encoders (for the version-equivalence claim)

Modelled from the spec: sources holding the same semantic content with
version-appropriate field widths — the byte layout §6 of the spec with
all reserved fields zero, the string pool at a chosen absolute offset,
and the entry records following the pool. -/

/-- Serialize a little-endian u32. -/
def encodeU32 (n : Nat) : List Nat :=
  [n % 256, n / 256 % 256, n / 65536 % 256, n / 16777216 % 256]

/-- Serialize a little-endian u64. -/
def encodeU64 (n : Nat) : List Nat :=
  [n % 256, n / 256 % 256, n / 65536 % 256, n / 16777216 % 256,
   n / 4294967296 % 256, n / 1099511627776 % 256, n / 281474976710656 % 256,
   n / 72057594037927936 % 256]

/-- Version code written in the header. -/
def verCode : VtPackVersion → Nat
  | VtPackVersion.Ver1 => 1
  | VtPackVersion.Ver2 => 2

/-- Serialize one version-width integer. -/
def encodeVerInt : VtPackVersion → Nat → List Nat
  | VtPackVersion.Ver1 => encodeU32
  | VtPackVersion.Ver2 => encodeU64

/-- Total header length: 34 bytes for V1, 46 for V2. -/
def headerLen : VtPackVersion → Nat
  | VtPackVersion.Ver1 => 34
  | VtPackVersion.Ver2 => 46

/-- Header bytes for entry count `cnt` and string-pool offset `off`,
with zeroed reserved fields. -/
def headerBytes (v : VtPackVersion) (cnt off : Nat) : List Nat :=
  magicBytes ++ encodeU32 (verCode v) ++ encodeU32 0 ++ encodeU32 0 ++
  encodeVerInt v 0 ++ encodeVerInt v 0 ++ encodeU32 cnt ++ encodeVerInt v off

/-- Serialize one 44-byte entry record. -/
def encodeEntry (e : VtPackRawEntryHeader) : List Nat :=
  encodeU32 e.path_name_str_table_offset ++ encodeU32 e.path_dir_str_table_offset ++
  encodeU32 e.unk1 ++ encodeU64 e.file_size ++ encodeU64 e.unk2 ++
  encodeU64 e.file_data_abs_offset ++ encodeU32 e.unk3 ++ encodeU32 e.unk4

/-- Field bounds making an entry representable at its field widths. -/
def WFEntry (e : VtPackRawEntryHeader) : Prop :=
  e.path_name_str_table_offset < 4294967296 ∧ e.path_dir_str_table_offset < 4294967296 ∧
  e.unk1 < 4294967296 ∧ e.file_size < 18446744073709551616 ∧
  e.unk2 < 18446744073709551616 ∧ e.file_data_abs_offset < 18446744073709551616 ∧
  e.unk3 < 4294967296 ∧ e.unk4 < 4294967296

instance (e : VtPackRawEntryHeader) : Decidable (WFEntry e) := by
  unfold WFEntry
  infer_instance

/-- A whole archive image: header, zero padding up to the pool offset,
the pool (32-bit length plus bytes), then the entry records. -/
def encodeArchive (v : VtPackVersion) (poolOff : Nat) (pool : List Nat)
    (entries : List VtPackRawEntryHeader) : List Nat :=
  headerBytes v entries.length poolOff ++
  (List.replicate (poolOff - headerLen v) 0 ++
   (encodeU32 pool.length ++ (pool ++ (entries.map encodeEntry).flatten)))

/-! ## Byte-level lemmas -/

@[simp] theorem magicBytes_length : magicBytes.length = 6 := rfl

@[simp] theorem encodeU32_length (n : Nat) : (encodeU32 n).length = 4 := rfl

@[simp] theorem encodeU64_length (n : Nat) : (encodeU64 n).length = 8 := rfl

@[simp] theorem encodeEntry_length (e : VtPackRawEntryHeader) : (encodeEntry e).length = 44 := by
  simp [encodeEntry]

theorem headerBytes_length (v : VtPackVersion) (cnt off : Nat) :
    (headerBytes v cnt off).length = headerLen v := by
  cases v <;> rfl

theorem leValU32 (n : Nat) (h : n < 4294967296) : leVal (encodeU32 n) = n := by
  simp [leVal, encodeU32]
  omega

theorem leValU64 (n : Nat) (h : n < 18446744073709551616) : leVal (encodeU64 n) = n := by
  simp [leVal, encodeU64]
  omega

theorem readBytes_skip (l₁ l₂ : List Nat) (pos n : Nat) (h : l₁.length ≤ pos) :
    readBytes (l₁ ++ l₂) pos n = readBytes l₂ (pos - l₁.length) n := by
  obtain ⟨k, rfl⟩ : ∃ k, pos = l₁.length + k := ⟨pos - l₁.length, by omega⟩
  simp [readBytes, List.drop_append]

theorem readBytes_here (l rest : List Nat) : readBytes (l ++ rest) 0 l.length = some l := by
  simp [readBytes, List.take_left]

theorem readBytes_isSome_iff (s : List Nat) (pos n : Nat) :
    (readBytes s pos n).isSome ↔ n ≤ s.length - pos := by
  simp only [readBytes]
  by_cases h : (((s.drop pos).take n).length = n) <;>
    simp_all [List.length_take, List.length_drop]

theorem readU32_skip (l₁ l₂ : List Nat) (pos : Nat) (h : l₁.length ≤ pos) :
    readU32 (l₁ ++ l₂) pos = readU32 l₂ (pos - l₁.length) := by
  unfold readU32
  rw [readBytes_skip _ _ _ _ h]

theorem readU64_skip (l₁ l₂ : List Nat) (pos : Nat) (h : l₁.length ≤ pos) :
    readU64 (l₁ ++ l₂) pos = readU64 l₂ (pos - l₁.length) := by
  unfold readU64
  rw [readBytes_skip _ _ _ _ h]

theorem readU32_enc (n : Nat) (rest : List Nat) (h : n < 4294967296) :
    readU32 (encodeU32 n ++ rest) 0 = some n := by
  unfold readU32
  rw [show (4 : Nat) = (encodeU32 n).length from rfl, readBytes_here]
  simp [leValU32 n h]

theorem readU32_some_le (s : List Nat) (pos n : Nat) (h : readU32 s pos = some n) :
    pos + 4 ≤ s.length := by
  have : (readBytes s pos 4).isSome := by
    unfold readU32 at h
    cases hb : readBytes s pos 4 <;> simp [hb] at h ⊢
  have := (readBytes_isSome_iff s pos 4).1 this
  omega

theorem readBytes_some_le (s : List Nat) (pos n : Nat) (r : List Nat)
    (h : readBytes s pos n = some r) : n ≤ s.length - pos := by
  have : (readBytes s pos n).isSome := by simp [h]
  exact (readBytes_isSome_iff s pos n).1 this

theorem readBytes_none_of_lt (s : List Nat) (pos n : Nat) (h : s.length - pos < n) :
    readBytes s pos n = none := by
  cases hb : readBytes s pos n with
  | none => rfl
  | some r => exact absurd (readBytes_some_le s pos n r hb) (by omega)

/-! ## Decoding an encoded archive -/

set_option maxHeartbeats 1600000 in
theorem decodeHeader_encV1 (poolOff : Nat) (pool : List Nat) (entries : List VtPackRawEntryHeader)
    (hc : entries.length < 4294967296) (ho : poolOff < 4294967296) :
    decodeHeader (encodeArchive VtPackVersion.Ver1 poolOff pool entries) =
      Except.ok ⟨VtPackVersion.Ver1, 0, 0, 0, 0, 0, 0, entries.length, poolOff, 0⟩ := by
  have base : decodeHeader (encodeArchive VtPackVersion.Ver1 poolOff pool entries) =
      Except.ok ⟨VtPackVersion.Ver1, 0, 0, 0, 0, 0, 0,
        leVal (encodeU32 entries.length), leVal (encodeU32 poolOff), 0⟩ := rfl
  rw [base, leValU32 _ hc, leValU32 _ ho]

set_option maxHeartbeats 1600000 in
theorem decodeHeader_encV2 (poolOff : Nat) (pool : List Nat) (entries : List VtPackRawEntryHeader)
    (hc : entries.length < 4294967296) (ho : poolOff < 18446744073709551616) :
    decodeHeader (encodeArchive VtPackVersion.Ver2 poolOff pool entries) =
      Except.ok ⟨VtPackVersion.Ver2, 0, 0, 0, 0, 0, 0, entries.length, 0, poolOff⟩ := by
  have base : decodeHeader (encodeArchive VtPackVersion.Ver2 poolOff pool entries) =
      Except.ok ⟨VtPackVersion.Ver2, 0, 0, 0, 0, 0, 0,
        leVal (encodeU32 entries.length), 0, leVal (encodeU64 poolOff)⟩ := rfl
  rw [base, leValU32 _ hc, leValU64 _ ho]

theorem readBytes_at_pool (v : VtPackVersion) (poolOff : Nat) (pool : List Nat)
    (entries : List VtPackRawEntryHeader) (pos n : Nat)
    (hoff : headerLen v ≤ poolOff) (hpos : poolOff ≤ pos) :
    readBytes (encodeArchive v poolOff pool entries) pos n =
      readBytes (encodeU32 pool.length ++ (pool ++ (entries.map encodeEntry).flatten))
        (pos - poolOff) n := by
  unfold encodeArchive
  rw [readBytes_skip _ _ _ _ (by simp only [headerBytes_length]; omega)]
  rw [readBytes_skip _ _ _ _ (by simp only [headerBytes_length, List.length_replicate]; omega)]
  simp only [headerBytes_length, List.length_replicate]
  have h2 : pos - headerLen v - (poolOff - headerLen v) = pos - poolOff := by omega
  rw [h2]

set_option maxHeartbeats 1600000 in
theorem readRawEntry_enc (e : VtPackRawEntryHeader) (rest : List Nat) (h : WFEntry e) :
    readRawEntry (encodeEntry e ++ rest) 0 = some e := by
  obtain ⟨h1, h2, h3, h4, h5, h6, h7, h8⟩ := h
  have base : readRawEntry (encodeEntry e ++ rest) 0 =
      some ⟨leVal (encodeU32 e.path_name_str_table_offset),
            leVal (encodeU32 e.path_dir_str_table_offset),
            leVal (encodeU32 e.unk1), leVal (encodeU64 e.file_size), leVal (encodeU64 e.unk2),
            leVal (encodeU64 e.file_data_abs_offset), leVal (encodeU32 e.unk3),
            leVal (encodeU32 e.unk4)⟩ := rfl
  rw [base, leValU32 _ h1, leValU32 _ h2, leValU32 _ h3, leValU64 _ h4, leValU64 _ h5,
      leValU64 _ h6, leValU32 _ h7, leValU32 _ h8]

theorem readRawEntry_skip (l₁ l₂ : List Nat) (pos : Nat) (h : l₁.length ≤ pos) :
    readRawEntry (l₁ ++ l₂) pos = readRawEntry l₂ (pos - l₁.length) := by
  unfold readRawEntry
  rw [readU32_skip _ _ _ h, readU32_skip _ _ _ (by omega), readU32_skip _ _ _ (by omega),
      readU64_skip _ _ _ (by omega), readU64_skip _ _ _ (by omega), readU64_skip _ _ _ (by omega),
      readU32_skip _ _ _ (by omega), readU32_skip _ _ _ (by omega)]
  have e4 : pos + 4 - l₁.length = pos - l₁.length + 4 := by omega
  have e8 : pos + 8 - l₁.length = pos - l₁.length + 8 := by omega
  have e12 : pos + 12 - l₁.length = pos - l₁.length + 12 := by omega
  have e20 : pos + 20 - l₁.length = pos - l₁.length + 20 := by omega
  have e28 : pos + 28 - l₁.length = pos - l₁.length + 28 := by omega
  have e36 : pos + 36 - l₁.length = pos - l₁.length + 36 := by omega
  have e40 : pos + 40 - l₁.length = pos - l₁.length + 40 := by omega
  rw [e4, e8, e12, e20, e28, e36, e40]

theorem readRawEntries_skip (l₁ l₂ : List Nat) (pos n : Nat) (h : l₁.length ≤ pos) :
    readRawEntries (l₁ ++ l₂) pos n = readRawEntries l₂ (pos - l₁.length) n := by
  induction n generalizing pos with
  | zero => rfl
  | succ n ih =>
    show readRawEntries _ pos (n + 1) = readRawEntries _ (pos - l₁.length) (n + 1)
    unfold readRawEntries
    rw [readRawEntry_skip _ _ _ h, ih (pos + 44) (by omega)]
    have e44 : pos + 44 - l₁.length = pos - l₁.length + 44 := by omega
    rw [e44]

theorem readRawEntries_enc (entries : List VtPackRawEntryHeader) (rest : List Nat)
    (h : ∀ e ∈ entries, WFEntry e) :
    readRawEntries ((entries.map encodeEntry).flatten ++ rest) 0 entries.length = some entries := by
  induction entries with
  | nil => rfl
  | cons e es ih =>
    have hwe : WFEntry e := h e (List.mem_cons_self e es)
    have hwes : ∀ x ∈ es, WFEntry x := fun x hx => h x (List.mem_cons_of_mem e hx)
    simp only [List.map_cons, List.flatten_cons, List.append_assoc, List.length_cons]
    show readRawEntries _ 0 (es.length + 1) = _
    unfold readRawEntries
    rw [readRawEntry_enc e _ hwe]
    rw [show (0 : Nat) + 44 = 44 from rfl]
    rw [readRawEntries_skip (encodeEntry e) _ 44 es.length (by simp)]
    rw [show (44 : Nat) - (encodeEntry e).length = 0 from by simp]
    rw [ih hwes]
    rfl

theorem readStringTable_enc (v : VtPackVersion) (poolOff : Nat) (pool : List Nat)
    (entries : List VtPackRawEntryHeader)
    (hoff : headerLen v ≤ poolOff) (hpl : pool.length < 4294967296) :
    readStringTable (encodeArchive v poolOff pool entries) poolOff =
      some (⟨pool.length, pool⟩, poolOff + 4 + pool.length) := by
  have h1 : readU32 (encodeArchive v poolOff pool entries) poolOff = some pool.length := by
    unfold readU32
    rw [readBytes_at_pool v poolOff pool entries poolOff 4 hoff (le_refl _), Nat.sub_self]
    rw [show (4 : Nat) = (encodeU32 pool.length).length from rfl, readBytes_here]
    simp [leValU32 _ hpl]
  have h2 : readBytes (encodeArchive v poolOff pool entries) (poolOff + 4) pool.length =
      some pool := by
    rw [readBytes_at_pool v poolOff pool entries (poolOff + 4) pool.length hoff (by omega)]
    rw [show poolOff + 4 - poolOff = 4 from by omega]
    rw [readBytes_skip _ _ _ _ (by simp)]
    rw [show (4 : Nat) - (encodeU32 pool.length).length = 0 from by simp]
    rw [readBytes_here]
  unfold readStringTable
  simp only [h1, h2]

theorem readRawEntries_enc_at (v : VtPackVersion) (poolOff : Nat) (pool : List Nat)
    (entries : List VtPackRawEntryHeader)
    (hoff : headerLen v ≤ poolOff) (hwf : ∀ e ∈ entries, WFEntry e) :
    readRawEntries (encodeArchive v poolOff pool entries) (poolOff + 4 + pool.length)
      entries.length = some entries := by
  unfold encodeArchive
  rw [readRawEntries_skip _ _ _ _ (by simp only [headerBytes_length]; omega)]
  rw [readRawEntries_skip _ _ _ _ (by simp only [headerBytes_length, List.length_replicate]; omega)]
  simp only [headerBytes_length, List.length_replicate]
  rw [readRawEntries_skip _ _ _ _
    (by simp only [encodeU32_length]; omega)]
  simp only [encodeU32_length]
  rw [readRawEntries_skip pool _ _ _ (by omega)]
  rw [show poolOff + 4 + pool.length - headerLen v - (poolOff - headerLen v) - 4 - pool.length = 0
      from by omega]
  have := readRawEntries_enc entries [] hwf
  rwa [List.append_nil] at this

/-- The raw archive produced by decoding an encoded image. -/
def rawOf (v : VtPackVersion) (poolOff : Nat) (pool : List Nat)
    (entries : List VtPackRawEntryHeader) : VtPackRawFile :=
  match v with
  | VtPackVersion.Ver1 =>
    ⟨VtPackVersion.Ver1, 0, 0, 0, 0, 0, 0, entries.length, poolOff, 0, ⟨pool.length, pool⟩, entries⟩
  | VtPackVersion.Ver2 =>
    ⟨VtPackVersion.Ver2, 0, 0, 0, 0, 0, 0, entries.length, 0, poolOff, ⟨pool.length, pool⟩, entries⟩

theorem decodeRawFile_enc (v : VtPackVersion) (poolOff : Nat) (pool : List Nat)
    (entries : List VtPackRawEntryHeader)
    (hoff : headerLen v ≤ poolOff) (ho : poolOff < 4294967296)
    (hpl : pool.length < 4294967296) (hc : entries.length < 4294967296)
    (hwf : ∀ e ∈ entries, WFEntry e) :
    decodeRawFile (encodeArchive v poolOff pool entries) =
      Except.ok (rawOf v poolOff pool entries) := by
  cases v with
  | Ver1 =>
    have hpos : strTablePos ⟨VtPackVersion.Ver1, 0, 0, 0, 0, 0, 0, entries.length, poolOff, 0⟩ =
        poolOff := by simp [strTablePos]
    unfold decodeRawFile
    simp only [decodeHeader_encV1 poolOff pool entries hc ho, hpos,
               readStringTable_enc VtPackVersion.Ver1 poolOff pool entries hoff hpl,
               readRawEntries_enc_at VtPackVersion.Ver1 poolOff pool entries hoff hwf, rawOf]
  | Ver2 =>
    have hpos : strTablePos ⟨VtPackVersion.Ver2, 0, 0, 0, 0, 0, 0, entries.length, 0, poolOff⟩ =
        poolOff := by simp [strTablePos]
    unfold decodeRawFile
    simp only [decodeHeader_encV2 poolOff pool entries hc (by omega), hpos,
               readStringTable_enc VtPackVersion.Ver2 poolOff pool entries hoff hpl,
               readRawEntries_enc_at VtPackVersion.Ver2 poolOff pool entries hoff hwf, rawOf]

theorem vtPackNew_eq (sep : Nat) (s : List Nat) (raw : VtPackRawFile)
    (pes : List VtPackProcessedEntry)
    (h1 : decodeRawFile s = Except.ok raw)
    (h2 : processEntries sep raw.str_table.table_data raw.entries = some pes) :
    vtPackNew sep s = VtPackNewResult.ok ⟨raw, pes⟩ := by
  simp only [vtPackNew, h1, h2]

/-! ## Path-resolver lemmas -/

/-- A string reference the resolver can follow without panicking: the
sentinel, or an offset whose pool tail contains a NUL terminator. -/
def okStringRef (table_data : List Nat) (off : Nat) : Prop :=
  off = INVALID_STRING_TABLE_OFFSET ∨ 0 ∈ table_data.drop off

instance (table_data : List Nat) (off : Nat) : Decidable (okStringRef table_data off) := by
  unfold okStringRef
  infer_instance

theorem resolveStr_isSome_iff (t : List Nat) (off : Nat) :
    (resolveStr t off).isSome ↔ okStringRef t off := by
  unfold resolveStr okStringRef sliceFrom bytesUntilNul
  by_cases h1 : off = INVALID_STRING_TABLE_OFFSET
  · simp [h1]
  · by_cases h2 : off ≤ t.length
    · by_cases h3 : (0 : Nat) ∈ t.drop off <;> simp [h1, h2, h3]
    · have hnil : t.drop off = [] := List.drop_eq_nil_of_le (by omega)
      simp [h1, h2, hnil]

theorem resolveEntry_isSome_iff (sep : Nat) (t : List Nat) (e : VtPackRawEntryHeader) :
    (resolveEntry sep t e).isSome ↔
      okStringRef t e.path_dir_str_table_offset ∧ okStringRef t e.path_name_str_table_offset := by
  rw [← resolveStr_isSome_iff, ← resolveStr_isSome_iff]
  unfold resolveEntry
  cases hd : resolveStr t e.path_dir_str_table_offset <;>
    cases hn : resolveStr t e.path_name_str_table_offset <;> simp

theorem processEntries_isSome_iff (sep : Nat) (t : List Nat)
    (entries : List VtPackRawEntryHeader) :
    (processEntries sep t entries).isSome ↔
      ∀ e ∈ entries, okStringRef t e.path_dir_str_table_offset ∧
        okStringRef t e.path_name_str_table_offset := by
  induction entries with
  | nil => simp [processEntries]
  | cons e es ih =>
    unfold processEntries
    cases hr : resolveEntry sep t e with
    | none =>
      have : ¬(okStringRef t e.path_dir_str_table_offset ∧
          okStringRef t e.path_name_str_table_offset) := by
        rw [← resolveEntry_isSome_iff sep]
        simp [hr]
      simp [this]
    | some pe =>
      have hok : okStringRef t e.path_dir_str_table_offset ∧
          okStringRef t e.path_name_str_table_offset :=
        (resolveEntry_isSome_iff sep t e).1 (by simp [hr])
      simp [hok, ih]

theorem processEntries_forall2 (sep : Nat) (t : List Nat) :
    ∀ (entries : List VtPackRawEntryHeader) (res : List VtPackProcessedEntry),
      processEntries sep t entries = some res →
      List.Forall₂ (fun e pe => resolveEntry sep t e = some pe) entries res := by
  intro entries
  induction entries with
  | nil =>
    intro res h
    simp only [processEntries, Option.some.injEq] at h
    rw [← h]
    exact List.Forall₂.nil
  | cons e es ih =>
    intro res h
    unfold processEntries at h
    cases he : resolveEntry sep t e with
    | none => rw [he] at h; cases h
    | some pe =>
      rw [he] at h
      cases hr : processEntries sep t es with
      | none => rw [hr] at h; cases h
      | some pes =>
        rw [hr] at h
        simp at h
        rw [← h]
        exact List.Forall₂.cons he (ih pes hr)

theorem forall2_mem_right {α β : Type} {R : α → β → Prop} :
    ∀ {l₁ : List α} {l₂ : List β}, List.Forall₂ R l₁ l₂ → ∀ b ∈ l₂, ∃ a ∈ l₁, R a b := by
  intro l₁ l₂ h
  induction h with
  | nil => simp
  | cons hR hF ih =>
    intro b hb
    rcases List.mem_cons.1 hb with rfl | hb2
    · exact ⟨_, List.mem_cons_self _ _, hR⟩
    · obtain ⟨a, ha, hr⟩ := ih b hb2
      exact ⟨a, List.mem_cons_of_mem _ ha, hr⟩

theorem stripLeadingSep_head (sep : Nat) (l : List Nat) :
    (stripLeadingSep sep l).head? ≠ some sep := by
  unfold stripLeadingSep
  induction l with
  | nil => simp
  | cons c rest ih =>
    by_cases h : c = sep
    · simpa [List.dropWhile_cons, h] using ih
    · simp [List.dropWhile_cons, h]

theorem mem_stripLeadingSep {sep c : Nat} {l : List Nat} (h : c ∈ stripLeadingSep sep l) :
    c ∈ l :=
  (List.dropWhile_sublist _).mem h

theorem mem_replaceChar {a b c : Nat} {l : List Nat} (h : c ∈ replaceChar a b l) :
    c = b ∨ c ∈ l := by
  unfold replaceChar at h
  obtain ⟨x, hx, hfx⟩ := List.mem_map.1 h
  by_cases hxa : x = a
  · simp [hxa] at hfx
    left
    omega
  · simp [hxa] at hfx
    right
    rwa [← hfx]

theorem replaceChar_no_occ {a b : Nat} : ∀ {l : List Nat}, a ∉ l → replaceChar a b l = l := by
  intro l
  induction l with
  | nil => intro _; rfl
  | cons c rest ih =>
    intro h
    have hca : c ≠ a := fun hc => h (by simp [hc])
    have hrest : a ∉ rest := fun hr => h (List.mem_cons_of_mem c hr)
    simp only [replaceChar, List.map_cons, if_neg hca]
    have := ih hrest
    unfold replaceChar at this
    rw [this]

theorem mem_collapseBS {c : Nat} : ∀ {l : List Nat}, c ∈ collapseBS l → c ∈ l := by
  intro l
  induction l using collapseBS.induct with
  | case1 => simp [collapseBS]
  | case2 x => simp [collapseBS]
  | case3 x x2 rest2 hbs ih =>
    intro h
    rw [collapseBS, if_pos hbs] at h
    rcases List.mem_cons.1 h with rfl | h2
    · simp [hbs.1]
    · simp [ih h2]
  | case4 x x2 rest2 hbs ih =>
    intro h
    rw [collapseBS, if_neg hbs] at h
    rcases List.mem_cons.1 h with rfl | h2
    · simp
    · simp [ih h2]

theorem collapseBS_no_bs : ∀ {l : List Nat}, backslash ∉ l → collapseBS l = l := by
  intro l
  induction l using collapseBS.induct with
  | case1 => intro _; rfl
  | case2 x => intro _; rfl
  | case3 x x2 rest2 hbs ih =>
    intro h
    exact absurd (by simp [hbs.1]) h
  | case4 x x2 rest2 hbs ih =>
    intro h
    rw [collapseBS, if_neg hbs, ih (fun hm => h (List.mem_cons_of_mem x hm))]

theorem collapseBS_append_bs : ∀ {l : List Nat}, backslash ∉ l →
    collapseBS (l ++ [backslash]) = l ++ [backslash] := by
  intro l
  induction l with
  | nil => intro _; rfl
  | cons c rest ih =>
    intro h
    have hc : c ≠ backslash := fun hc => h (by simp [hc])
    have hrest : backslash ∉ rest := fun hr => h (List.mem_cons_of_mem c hr)
    cases rest with
    | nil =>
      simp only [List.nil_append, List.cons_append]
      rw [collapseBS, if_neg (fun hand => hc hand.1)]
      rfl
    | cons c2 rest2 =>
      simp only [List.cons_append]
      rw [collapseBS, if_neg (fun hand => hc hand.1)]
      have := ih hrest
      simp only [List.cons_append] at this
      rw [this]

theorem collapseBS_bs_cons : ∀ {l : List Nat}, backslash ∉ l →
    collapseBS (backslash :: l) = backslash :: l := by
  intro l h
  cases l with
  | nil => rfl
  | cons c rest =>
    have hc : c ≠ backslash := fun hc => h (by simp [hc])
    rw [collapseBS, if_neg (fun hand => hc hand.2)]
    rw [collapseBS_no_bs h]


theorem joinPath_head (sep : Nat) (dir name : List Nat) :
    (joinPath sep dir name).head? ≠ some sep := by
  unfold joinPath
  exact stripLeadingSep_head sep _

theorem joinPath_no_colon {sep : Nat} {dir name : List Nat} (hsep : sep ≠ 58)
    (hd : 58 ∉ dir) (hn : 58 ∉ name) : 58 ∉ joinPath sep dir name := by
  intro hmem
  unfold joinPath at hmem
  have h1 := mem_stripLeadingSep hmem
  rcases mem_replaceChar h1 with h | h
  · exact hsep h.symm
  · have h2 := mem_collapseBS h
    rcases List.mem_append.1 h2 with h3 | h3
    · exact hd h3
    · rcases List.mem_cons.1 h3 with h4 | h4
      · simp [backslash] at h4
      · exact hn h4

theorem stripLeadingSep_append {sep : Nat} {l t : List Nat} (h : ∃ c ∈ l, c ≠ sep) :
    stripLeadingSep sep (l ++ t) = stripLeadingSep sep l ++ t := by
  unfold stripLeadingSep
  induction l with
  | nil =>
    obtain ⟨c, hc, _⟩ := h
    cases hc
  | cons c rest ih =>
    by_cases hc : c = sep
    · obtain ⟨x, hx, hxs⟩ := h
      rcases List.mem_cons.1 hx with rfl | hxr
      · exact absurd hc hxs
      · simp only [List.cons_append, List.dropWhile_cons]
        rw [if_pos (by simp [hc]), if_pos (by simp [hc])]
        exact ih ⟨x, hxr, hxs⟩
    · simp only [List.cons_append, List.dropWhile_cons]
      rw [if_neg (by simp [hc]), if_neg (by simp [hc])]
      simp

theorem joinPath_sentinel_sentinel (sep : Nat) : joinPath sep [] [] = [] := by
  unfold joinPath
  rw [show collapseBS ([] ++ backslash :: []) = [backslash] from rfl]
  simp [replaceChar, stripLeadingSep, backslash]

theorem joinPath_dir_sentinel {sep : Nat} {name : List Nat} (hn : backslash ∉ name) :
    joinPath sep [] name = stripLeadingSep sep name := by
  unfold joinPath
  rw [List.nil_append, collapseBS_bs_cons hn]
  have h1 : replaceChar backslash sep name = name := replaceChar_no_occ hn
  unfold replaceChar at h1 ⊢
  simp only [List.map_cons, if_pos rfl]
  rw [h1]
  unfold stripLeadingSep
  rw [List.dropWhile_cons, if_pos (by simp)]

theorem joinPath_name_sentinel {sep : Nat} {dir : List Nat} (hd : backslash ∉ dir)
    (hne : ∃ c ∈ dir, c ≠ sep) :
    joinPath sep dir [] = stripLeadingSep sep dir ++ [sep] := by
  unfold joinPath
  rw [show dir ++ backslash :: [] = dir ++ [backslash] from rfl, collapseBS_append_bs hd]
  have h1 : replaceChar backslash sep dir = dir := replaceChar_no_occ hd
  unfold replaceChar at h1 ⊢
  rw [List.map_append, h1]
  rw [show List.map (fun c => if c = backslash then sep else c) [backslash] = [sep] from by simp]
  exact stripLeadingSep_append hne

theorem resolveStr_sentinel (t : List Nat) :
    resolveStr t INVALID_STRING_TABLE_OFFSET = some [] := rfl

theorem resolveEntry_some_elim {sep : Nat} {t : List Nat} {e : VtPackRawEntryHeader}
    {pe : VtPackProcessedEntry} (h : resolveEntry sep t e = some pe) :
    ∃ dirStr nameStr, resolveStr t e.path_dir_str_table_offset = some dirStr ∧
      resolveStr t e.path_name_str_table_offset = some nameStr ∧
      pe = ⟨decide (e.file_data_abs_offset ≠ 0), joinPath sep dirStr nameStr,
            e.file_size, e.file_data_abs_offset⟩ := by
  unfold resolveEntry at h
  cases hd : resolveStr t e.path_dir_str_table_offset with
  | none => rw [hd] at h; cases h
  | some dirStr =>
    cases hn : resolveStr t e.path_name_str_table_offset with
    | none => rw [hd, hn] at h; cases h
    | some nameStr =>
      rw [hd, hn] at h
      refine ⟨dirStr, nameStr, rfl, rfl, ?_⟩
      cases h
      rfl

/-! ## Elimination lemmas for successful decodes -/

theorem readStringTable_some_elim {s : List Nat} {pos : Nat} {st : VtPackStringTable} {ep : Nat}
    (h : readStringTable s pos = some (st, ep)) :
    readU32 s pos = some st.table_size ∧ readBytes s (pos + 4) st.table_size = some st.table_data ∧
      ep = pos + 4 + st.table_size := by
  unfold readStringTable at h
  split at h
  · cases h
  · rename_i sz h1
    split at h
    · cases h
    · rename_i data h2
      cases h
      exact ⟨h1, h2, rfl⟩

theorem decodeHeader_cases {s : List Nat} {h : VtPackHeaderFields}
    (hd : decodeHeader s = Except.ok h) :
    decodeHeaderWith VtPackVersion.Ver1 s = Except.ok h ∨
      decodeHeaderWith VtPackVersion.Ver2 s = Except.ok h := by
  unfold decodeHeader at hd
  split at hd
  · cases hd
  · split at hd
    · split at hd
      · cases hd
      · split at hd
        · exact Or.inl hd
        · split at hd
          · exact Or.inr hd
          · cases hd
    · cases hd

theorem decodeHeaderWith_v1_elim {s : List Nat} {h : VtPackHeaderFields}
    (hd : decodeHeaderWith VtPackVersion.Ver1 s = Except.ok h) :
    h.version = VtPackVersion.Ver1 ∧ h.unk3_v2 = 0 ∧ h.unk4_v2 = 0 ∧
      h.str_table_abs_offset_v2 = 0 ∧ readU32 s 30 = some h.str_table_abs_offset_v1 ∧
      readU32 s 26 = some h.entry_count := by
  unfold decodeHeaderWith at hd
  simp only [verWidth, readVerInt] at hd
  split at hd
  · rename_i u1 u2 u3 u4 ec st h1 h2 h3 h4 h5 h6
    cases hd
    exact ⟨rfl, rfl, rfl, rfl, h6, h5⟩
  · cases hd

theorem decodeHeaderWith_v2_elim {s : List Nat} {h : VtPackHeaderFields}
    (hd : decodeHeaderWith VtPackVersion.Ver2 s = Except.ok h) :
    h.version = VtPackVersion.Ver2 ∧ h.unk3_v1 = 0 ∧ h.unk4_v1 = 0 ∧
      h.str_table_abs_offset_v1 = 0 ∧ readU64 s 38 = some h.str_table_abs_offset_v2 ∧
      readU32 s 34 = some h.entry_count := by
  unfold decodeHeaderWith at hd
  simp only [verWidth, readVerInt] at hd
  split at hd
  · rename_i u1 u2 u3 u4 ec st h1 h2 h3 h4 h5 h6
    cases hd
    exact ⟨rfl, rfl, rfl, rfl, h6, h5⟩
  · cases hd

theorem decodeRawFile_ok_elim {s : List Nat} {raw : VtPackRawFile}
    (h : decodeRawFile s = Except.ok raw) :
    ∃ hf ep, decodeHeader s = Except.ok hf ∧
      readStringTable s (strTablePos hf) = some (raw.str_table, ep) ∧
      readRawEntries s ep hf.entry_count = some raw.entries ∧
      hf.entry_count = raw.entry_count ∧
      hf.str_table_abs_offset_v1 = raw.str_table_abs_offset_v1 ∧
      hf.str_table_abs_offset_v2 = raw.str_table_abs_offset_v2 ∧
      hf.version = raw.version := by
  unfold decodeRawFile at h
  split at h
  · cases h
  · rename_i hf hdec
    split at h
    · cases h
    · rename_i stp st ep hst
      split at h
      · cases h
      · rename_i es hre
        cases h
        exact ⟨hf, ep, hdec, hst, hre, rfl, rfl, rfl, rfl⟩

/-! ## Truncation lemmas -/

theorem readRawEntry_none_of_lt (s : List Nat) (pos : Nat) (h : s.length < pos + 44) :
    readRawEntry s pos = none := by
  have h8 : readU32 s (pos + 40) = none := by
    unfold readU32
    rw [readBytes_none_of_lt s _ 4 (by omega)]
    rfl
  unfold readRawEntry
  split
  · simp_all
  · rfl

theorem readRawEntries_none_of_lt (s : List Nat) :
    ∀ (n pos : Nat), 0 < n → s.length < pos + 44 * n → readRawEntries s pos n = none := by
  intro n
  induction n with
  | zero => intro pos h; omega
  | succ n ih =>
    intro pos _ hlen
    show readRawEntries s pos (n + 1) = none
    unfold readRawEntries
    cases he : readRawEntry s pos with
    | none => rfl
    | some e =>
      have hle : pos + 44 ≤ s.length := by
        by_contra hc
        rw [readRawEntry_none_of_lt s pos (by omega)] at he
        cases he
      cases n with
      | zero => omega
      | succ m =>
        rw [ih (pos + 44) (by omega) (by omega)]
        rfl

instance {ε α : Type} [DecidableEq ε] [DecidableEq α] : DecidableEq (Except ε α) := fun a b =>
  match a, b with
  | Except.error e₁, Except.error e₂ =>
    if h : e₁ = e₂ then isTrue (by rw [h]) else isFalse (fun hc => h (by injection hc))
  | Except.ok v₁, Except.ok v₂ =>
    if h : v₁ = v₂ then isTrue (by rw [h]) else isFalse (fun hc => h (by injection hc))
  | Except.error _, Except.ok _ => isFalse (fun hc => Except.noConfusion hc)
  | Except.ok _, Except.error _ => isFalse (fun hc => Except.noConfusion hc)

/-! ## Concrete archive images -/

/-- A V1 archive: header (entry count 1, pool offset 38), four garbage
bytes at 34..38, the pool "a NUL" at 38..44, and one entry record at 44
(name offset 0, directory sentinel, size 1, payload offset 5). -/
def srcA : List Nat :=
  [118, 116, 80, 97, 99, 107, 1, 0, 0, 0, 0, 0, 0, 0, 0, 0, 0, 0, 0, 0, 0, 0, 0, 0, 0, 0,
   1, 0, 0, 0, 38, 0, 0, 0,
   9, 9, 9, 9,
   2, 0, 0, 0, 97, 0,
   0, 0, 0, 0, 255, 255, 255, 255, 0, 0, 0, 0, 1, 0, 0, 0, 0, 0, 0, 0,
   0, 0, 0, 0, 0, 0, 0, 0, 5, 0, 0, 0, 0, 0, 0, 0, 0, 0, 0, 0, 0, 0, 0, 0]

/-- The raw archive decoded from `srcA`. -/
def rawA : VtPackRawFile :=
  ⟨VtPackVersion.Ver1, 0, 0, 0, 0, 0, 0, 1, 38, 0, ⟨2, [97, 0]⟩,
   [⟨0, 4294967295, 0, 1, 0, 5, 0, 0⟩]⟩

/-- Like `srcA` but the entry's directory offset is 7, past the 2-byte pool. -/
def srcB : List Nat :=
  [118, 116, 80, 97, 99, 107, 1, 0, 0, 0, 0, 0, 0, 0, 0, 0, 0, 0, 0, 0, 0, 0, 0, 0, 0, 0,
   1, 0, 0, 0, 38, 0, 0, 0,
   9, 9, 9, 9,
   2, 0, 0, 0, 97, 0,
   0, 0, 0, 0, 7, 0, 0, 0, 0, 0, 0, 0, 1, 0, 0, 0, 0, 0, 0, 0,
   0, 0, 0, 0, 0, 0, 0, 0, 5, 0, 0, 0, 0, 0, 0, 0, 0, 0, 0, 0, 0, 0, 0, 0]

/-- A V1 archive whose 2-byte pool "ab" holds no NUL terminator, with one
entry whose name offset 0 references it. -/
def srcC : List Nat :=
  [118, 116, 80, 97, 99, 107, 1, 0, 0, 0, 0, 0, 0, 0, 0, 0, 0, 0, 0, 0, 0, 0, 0, 0, 0, 0,
   1, 0, 0, 0, 34, 0, 0, 0,
   2, 0, 0, 0, 97, 98,
   0, 0, 0, 0, 255, 255, 255, 255, 0, 0, 0, 0, 0, 0, 0, 0, 0, 0, 0, 0,
   0, 0, 0, 0, 0, 0, 0, 0, 0, 0, 0, 0, 0, 0, 0, 0, 0, 0, 0, 0, 0, 0, 0, 0]

/-- The raw archive decoded from `srcC`. -/
def rawC : VtPackRawFile :=
  ⟨VtPackVersion.Ver1, 0, 0, 0, 0, 0, 0, 1, 34, 0, ⟨2, [97, 98]⟩,
   [⟨0, 4294967295, 0, 0, 0, 0, 0, 0⟩]⟩

/-- A V1 archive truncated inside its string pool: the pool at offset 34
declares 10 bytes but only 2 are present. -/
def srcD : List Nat :=
  [118, 116, 80, 97, 99, 107, 1, 0, 0, 0, 0, 0, 0, 0, 0, 0, 0, 0, 0, 0, 0, 0, 0, 0, 0, 0,
   1, 0, 0, 0, 34, 0, 0, 0,
   10, 0, 0, 0, 97, 0]

/-! ## Claim C1 -/

/-- Claim C1, counterexample: `srcA` decodes successfully, but its single
entry record (name offset 0) is not the 44-byte record located
immediately after the 34-byte header (that record has name offset
151587081, read from the garbage and pool bytes): the decoder takes the
entry table from the position following the string pool, not following
the header. -/
theorem vtpack_C1_counterexample :
    decodeRawFile srcA = Except.ok rawA ∧
    readRawEntries srcA 34 1 ≠ some rawA.entries ∧
    (readRawEntry srcA 34).map (fun e => e.path_name_str_table_offset) = some 151587081 ∧
    rawA.entries.map (fun e => e.path_name_str_table_offset) = [0] := by
  refine ⟨by decide, by decide, by decide, by decide⟩

/-- Claim C1, amended: for every successfully decoded archive, the entry
records are the `entry_count` 44-byte records decoded sequentially from
the position where the string-pool read left the cursor (resolved pool
offset + 4 + declared pool length), not from the position following the
header. -/
theorem vtpack_C1_amended (s : List Nat) (raw : VtPackRawFile)
    (h : decodeRawFile s = Except.ok raw) :
    readRawEntries s
      (max raw.str_table_abs_offset_v2 raw.str_table_abs_offset_v1 + 4 + raw.str_table.table_size)
      raw.entry_count = some raw.entries := by
  obtain ⟨hf, ep, hdec, hst, hre, hcnt, hv1, hv2, hver⟩ := decodeRawFile_ok_elim h
  obtain ⟨ht, hb, hep⟩ := readStringTable_some_elim hst
  unfold strTablePos at hep
  rw [← hcnt, ← hv1, ← hv2, ← hep]
  exact hre

/-- Claim C1, witness: the amended statement evaluated on `srcA`. -/
theorem vtpack_C1_amended_witness :
    readRawEntries srcA (max 0 38 + 4 + 2) 1 = some [⟨0, 4294967295, 0, 1, 0, 5, 0, 0⟩] :=
  vtpack_C1_amended srcA rawA (by decide)

/-! ## Claim C3 -/

/-- Claim C3, counterexample: on `srcB` (directory offset 7 beyond the
2-byte pool) the whole `VtPackFile::new` call panics; it does not return
an error value of any kind. -/
theorem vtpack_C3_counterexample : vtPackNew 47 srcB = VtPackNewResult.panicked := by decide

/-- Claim C3, amended: when a non-sentinel directory or name offset
exceeds the pool length, entry resolution panics (modelled as `none`) —
it never silently defaults, but the failure is a panic, not a returned
error value. -/
theorem vtpack_C3_amended (sep : Nat) (pool : List Nat) (e : VtPackRawEntryHeader)
    (h : (e.path_dir_str_table_offset ≠ INVALID_STRING_TABLE_OFFSET ∧
          pool.length < e.path_dir_str_table_offset) ∨
         (e.path_name_str_table_offset ≠ INVALID_STRING_TABLE_OFFSET ∧
          pool.length < e.path_name_str_table_offset)) :
    resolveEntry sep pool e = none := by
  have hnone : ∀ off, off ≠ INVALID_STRING_TABLE_OFFSET → pool.length < off →
      resolveStr pool off = none := by
    intro off h1 h2
    unfold resolveStr sliceFrom
    rw [if_neg h1, if_neg (by omega)]
  unfold resolveEntry
  rcases h with ⟨h1, h2⟩ | ⟨h1, h2⟩
  · rw [hnone _ h1 h2]
  · rw [hnone _ h1 h2]
    cases hx : resolveStr pool e.path_dir_str_table_offset <;> rfl

/-- Claim C3, witness: the amended statement at a concrete out-of-bounds
directory offset. -/
theorem vtpack_C3_amended_witness :
    resolveEntry 47 [97, 0] ⟨0, 7, 0, 0, 0, 0, 0, 0⟩ = none :=
  vtpack_C3_amended 47 [97, 0] ⟨0, 7, 0, 0, 0, 0, 0, 0⟩ (Or.inl ⟨by decide, by decide⟩)

/-! ## Claim C4 -/

/-- Claim C4: on a source with fewer than `file_size` bytes available at
the payload offset, the modelled `save_entry` does not fail; its single
read returns the available bytes and the zero-initialized remainder of
the buffer is written out, yielding a zero-padded file. -/
theorem vtpack_C4_short_read_zero_fill :
    ([9, 9, 9, 9, 5, 6, 7] : List Nat).length < 4 + 5 ∧
    saveEntryFileContent [9, 9, 9, 9, 5, 6, 7] ⟨true, [], 5, 4⟩ = [5, 6, 7, 0, 0] :=
  ⟨by decide, by decide⟩

/-! ## Claim C5 -/

/-- Claim C5, counterexample: an entry with file-data offset 0 (a
directory) and raw size 7 resolves with `is_file = false` but size 7,
not 0. -/
theorem vtpack_C5_counterexample :
    (resolveEntry 47 []
        ⟨INVALID_STRING_TABLE_OFFSET, INVALID_STRING_TABLE_OFFSET, 0, 7, 0, 0, 0, 0⟩).map
      (fun pe => (pe.is_file, pe.file_size)) = some (false, 7) := by decide

/-- Claim C5, amended: for every resolved entry, `is_file` is true iff the
raw file-data offset is nonzero, and the resolved size equals the raw
file-size field verbatim for all entries — directories keep the raw
value rather than resolving to 0. -/
theorem vtpack_C5_amended (sep : Nat) (pool : List Nat) (entries : List VtPackRawEntryHeader)
    (res : List VtPackProcessedEntry) (h : processEntries sep pool entries = some res) :
    List.Forall₂ (fun e pe => (pe.is_file = true ↔ e.file_data_abs_offset ≠ 0) ∧
      pe.file_size = e.file_size) entries res := by
  refine (processEntries_forall2 sep pool entries res h).imp ?_
  intro e pe hr
  obtain ⟨dirStr, nameStr, hd, hn, rfl⟩ := resolveEntry_some_elim hr
  exact ⟨by simp, rfl⟩

/-- Claim C5, witness: the amended statement at a concrete directory
entry with raw size 7. -/
theorem vtpack_C5_amended_witness :
    ((⟨false, [], 7, 0⟩ : VtPackProcessedEntry).is_file = true ↔
      (⟨INVALID_STRING_TABLE_OFFSET, INVALID_STRING_TABLE_OFFSET, 0, 7, 0, 0, 0, 0⟩ :
        VtPackRawEntryHeader).file_data_abs_offset ≠ 0) ∧
    (⟨false, [], 7, 0⟩ : VtPackProcessedEntry).file_size =
      (⟨INVALID_STRING_TABLE_OFFSET, INVALID_STRING_TABLE_OFFSET, 0, 7, 0, 0, 0, 0⟩ :
        VtPackRawEntryHeader).file_size := by
  have h := vtpack_C5_amended 47 []
      [⟨INVALID_STRING_TABLE_OFFSET, INVALID_STRING_TABLE_OFFSET, 0, 7, 0, 0, 0, 0⟩]
      [⟨false, [], 7, 0⟩] (by decide)
  rcases h with _ | ⟨hrel, _⟩
  exact hrel

/-! ## Claim C6 -/

/-- Claim C6, counterexample: with a sentinel name offset and directory
"a", the resolved path is "a" followed by a separator — the join leaves a
stray trailing separator. -/
theorem vtpack_C6_counterexample :
    (resolveEntry 47 [97, 0] ⟨INVALID_STRING_TABLE_OFFSET, 0, 0, 0, 0, 0, 0, 0⟩).map
      (fun pe => pe.path) = some [97, 47] := by decide

/-- Claim C6, amended: when both offsets are the sentinel the path is
empty; when the directory offset is the sentinel the path omits the
directory with no stray leading separator (it is the name stripped of
leading separators); but when the name offset is the sentinel and the
directory is not all separators, a stray trailing separator remains: the
path is the stripped directory followed by one separator. -/
theorem vtpack_C6_amended (sep : Nat) (pool : List Nat) (e : VtPackRawEntryHeader)
    (pe : VtPackProcessedEntry) (h : resolveEntry sep pool e = some pe) :
    (e.path_dir_str_table_offset = INVALID_STRING_TABLE_OFFSET →
      e.path_name_str_table_offset = INVALID_STRING_TABLE_OFFSET → pe.path = []) ∧
    (∀ nameStr, e.path_dir_str_table_offset = INVALID_STRING_TABLE_OFFSET →
      resolveStr pool e.path_name_str_table_offset = some nameStr → backslash ∉ nameStr →
      pe.path = stripLeadingSep sep nameStr) ∧
    (∀ dirStr, e.path_name_str_table_offset = INVALID_STRING_TABLE_OFFSET →
      resolveStr pool e.path_dir_str_table_offset = some dirStr → backslash ∉ dirStr →
      (∃ c ∈ dirStr, c ≠ sep) → pe.path = stripLeadingSep sep dirStr ++ [sep]) := by
  obtain ⟨dirStr, nameStr, hd, hn, rfl⟩ := resolveEntry_some_elim h
  refine ⟨?_, ?_, ?_⟩
  · intro hds hns
    rw [hds, resolveStr_sentinel] at hd
    rw [hns, resolveStr_sentinel] at hn
    cases hd
    cases hn
    exact joinPath_sentinel_sentinel sep
  · intro nameStr0 hds hn0 hnb
    rw [hds, resolveStr_sentinel] at hd
    cases hd
    rw [hn] at hn0
    cases hn0
    exact joinPath_dir_sentinel hnb
  · intro dirStr0 hns hd0 hdb hex
    rw [hns, resolveStr_sentinel] at hn
    cases hn
    rw [hd] at hd0
    cases hd0
    exact joinPath_name_sentinel hdb hex

/-- Claim C6, witness: the amended trailing-separator case at directory
"a" with a sentinel name offset. -/
theorem vtpack_C6_amended_witness :
    (⟨false, [97, 47], 0, 0⟩ : VtPackProcessedEntry).path = stripLeadingSep 47 [97] ++ [47] := by
  have h := vtpack_C6_amended 47 [97, 0] ⟨INVALID_STRING_TABLE_OFFSET, 0, 0, 0, 0, 0, 0, 0⟩
      ⟨false, [97, 47], 0, 0⟩ (by decide)
  exact h.2.2 [97] rfl (by decide) (by decide) ⟨97, by decide, by decide⟩

/-! ## Claim C2 -/

/-- Claim C2: every resolved path starts with neither the platform
separator (the leading-separator strip guarantees this for all inputs),
nor — when the raw directory and name strings contain no colon, the only
character that could form a drive-root-like prefix — does it contain a
colon at all: path resolution always yields a relative path. -/
theorem vtpack_C2_relative_path (sep : Nat) (pool : List Nat)
    (entries : List VtPackRawEntryHeader) (res : List VtPackProcessedEntry)
    (hsep : sep ≠ 58)
    (h : processEntries sep pool entries = some res) :
    List.Forall₂ (fun e pe =>
      pe.path.head? ≠ some sep ∧
      (∀ dirStr nameStr, resolveStr pool e.path_dir_str_table_offset = some dirStr →
        resolveStr pool e.path_name_str_table_offset = some nameStr →
        58 ∉ dirStr → 58 ∉ nameStr → 58 ∉ pe.path)) entries res := by
  refine (processEntries_forall2 sep pool entries res h).imp ?_
  intro e pe hr
  obtain ⟨dirStr, nameStr, hd, hn, rfl⟩ := resolveEntry_some_elim hr
  constructor
  · exact joinPath_head sep dirStr nameStr
  · intro dirStr0 nameStr0 hd0 hn0 hdc hnc
    rw [hd] at hd0
    cases hd0
    rw [hn] at hn0
    cases hn0
    exact joinPath_no_colon hsep hdc hnc

/-- Claim C2, witness: the statement at a concrete entry resolving to
path "a". -/
theorem vtpack_C2_relative_path_witness :
    (⟨true, [97], 1, 60⟩ : VtPackProcessedEntry).path.head? ≠ some 47 ∧
      58 ∉ (⟨true, [97], 1, 60⟩ : VtPackProcessedEntry).path := by
  have h := vtpack_C2_relative_path 47 [97, 0]
      [⟨0, INVALID_STRING_TABLE_OFFSET, 0, 1, 0, 60, 0, 0⟩]
      [⟨true, [97], 1, 60⟩] (by decide) (by decide)
  rcases h with _ | ⟨hrel, _⟩
  exact ⟨hrel.1, hrel.2 [] [97] (by decide) (by decide) (by decide) (by decide)⟩

/-! ## Claim C7 -/

/-- Claim C7: for every decoded header, the inactive version's reserved
and string-pool-offset fields are structurally absent (zero) while the
active version's pool-offset field is read at its version-determined
position and width, and the string pool stored in a successfully decoded
archive is the one read at the maximum of the two offset fields. -/
theorem vtpack_C7_version_fields (s : List Nat) (h : VtPackHeaderFields)
    (hdec : decodeHeader s = Except.ok h) :
    (h.version = VtPackVersion.Ver1 →
      h.unk3_v2 = 0 ∧ h.unk4_v2 = 0 ∧ h.str_table_abs_offset_v2 = 0 ∧
      readU32 s 30 = some h.str_table_abs_offset_v1) ∧
    (h.version = VtPackVersion.Ver2 →
      h.unk3_v1 = 0 ∧ h.unk4_v1 = 0 ∧ h.str_table_abs_offset_v1 = 0 ∧
      readU64 s 38 = some h.str_table_abs_offset_v2) ∧
    (∀ raw, decodeRawFile s = Except.ok raw →
      ∃ ep, readStringTable s (max h.str_table_abs_offset_v2 h.str_table_abs_offset_v1) =
        some (raw.str_table, ep)) := by
  have hpool : ∀ raw, decodeRawFile s = Except.ok raw →
      ∃ ep, readStringTable s (max h.str_table_abs_offset_v2 h.str_table_abs_offset_v1) =
        some (raw.str_table, ep) := by
    intro raw hraw
    obtain ⟨hf, ep, hdec2, hst, _⟩ := decodeRawFile_ok_elim hraw
    rw [hdec] at hdec2
    cases hdec2
    exact ⟨ep, hst⟩
  rcases decodeHeader_cases hdec with h1 | h2
  · obtain ⟨hv, ha, hb, hc, hread, hcnt⟩ := decodeHeaderWith_v1_elim h1
    refine ⟨fun _ => ⟨ha, hb, hc, hread⟩, fun hcontra => ?_, hpool⟩
    rw [hv] at hcontra
    cases hcontra
  · obtain ⟨hv, ha, hb, hc, hread, hcnt⟩ := decodeHeaderWith_v2_elim h2
    refine ⟨fun hcontra => ?_, fun _ => ⟨ha, hb, hc, hread⟩, hpool⟩
    rw [hv] at hcontra
    cases hcontra

/-- Claim C7, witness: the V1 conjunct evaluated on `srcA` and its
decoded header. -/
theorem vtpack_C7_version_fields_witness :
    (0 : Nat) = 0 ∧ (0 : Nat) = 0 ∧ (0 : Nat) = 0 ∧ readU32 srcA 30 = some 38 :=
  (vtpack_C7_version_fields srcA ⟨VtPackVersion.Ver1, 0, 0, 0, 0, 0, 0, 1, 38, 0⟩ (by decide)).1 rfl

/-! ## Claim C8 -/

/-- Claim C8: when the source ends before the declared pool bytes are
available, decode returns the pool truncation error; when the pool is
read but the source ends before `entry_count` full 44-byte entry records
are available (so in particular before `entry_count` 40-byte records
are), decode returns the entry-table truncation error — in both cases an
error value, never a panic or a partially populated archive. -/
theorem vtpack_C8_truncation_errors (s : List Nat) (h : VtPackHeaderFields)
    (hdec : decodeHeader s = Except.ok h) :
    (∀ t, readU32 s (strTablePos h) = some t → s.length < strTablePos h + 4 + t →
      decodeRawFile s = Except.error DecodeError.truncatedPool) ∧
    (∀ st ep, readStringTable s (strTablePos h) = some (st, ep) →
      s.length < ep + 44 * h.entry_count →
      decodeRawFile s = Except.error DecodeError.truncatedEntryTable) := by
  constructor
  · intro t ht hlen
    have h0 := readU32_some_le s (strTablePos h) t ht
    have hbn : readBytes s (strTablePos h + 4) t = none :=
      readBytes_none_of_lt _ _ _ (by omega)
    have hst : readStringTable s (strTablePos h) = none := by
      unfold readStringTable
      simp only [ht, hbn]
    unfold decodeRawFile
    simp only [hdec, hst]
  · intro st ep hst hlen
    obtain ⟨ht, hb, hep⟩ := readStringTable_some_elim hst
    have h1 := readU32_some_le s (strTablePos h) st.table_size ht
    have h2 := readBytes_some_le s (strTablePos h + 4) st.table_size st.table_data hb
    have hcnt : 0 < h.entry_count := by
      by_contra hc
      push_neg at hc
      omega
    have hre : readRawEntries s ep h.entry_count = none :=
      readRawEntries_none_of_lt s h.entry_count ep hcnt hlen
    unfold decodeRawFile
    simp only [hdec, hst, hre]

/-- Claim C8, witness: `srcD` declares a 10-byte pool of which only 2
bytes are present; decode fails with the pool truncation error. -/
theorem vtpack_C8_truncation_errors_witness :
    decodeRawFile srcD = Except.error DecodeError.truncatedPool :=
  (vtpack_C8_truncation_errors srcD ⟨VtPackVersion.Ver1, 0, 0, 0, 0, 0, 0, 1, 34, 0⟩
    (by decide)).1 10 (by decide) (by decide)

/-! ## Claim C10 -/

/-- Claim C10: given a successfully decoded raw archive, `VtPackFile::new`
returns Ok exactly when every non-sentinel string reference of every
entry has a NUL terminator inside the pool; otherwise entry processing
panics (modelled as the `panicked` outcome), rather than returning an
error value. -/
theorem vtpack_C10_nul_termination (sep : Nat) (s : List Nat) (raw : VtPackRawFile)
    (h : decodeRawFile s = Except.ok raw) :
    ((∀ e ∈ raw.entries, okStringRef raw.str_table.table_data e.path_dir_str_table_offset ∧
        okStringRef raw.str_table.table_data e.path_name_str_table_offset) →
      ∃ pes, vtPackNew sep s = VtPackNewResult.ok ⟨raw, pes⟩) ∧
    ((¬ ∀ e ∈ raw.entries, okStringRef raw.str_table.table_data e.path_dir_str_table_offset ∧
        okStringRef raw.str_table.table_data e.path_name_str_table_offset) →
      vtPackNew sep s = VtPackNewResult.panicked) := by
  constructor
  · intro hok
    have hsome := (processEntries_isSome_iff sep raw.str_table.table_data raw.entries).2 hok
    obtain ⟨pes, hpes⟩ := Option.isSome_iff_exists.1 hsome
    exact ⟨pes, vtPackNew_eq sep s raw pes h hpes⟩
  · intro hbad
    have hnone : processEntries sep raw.str_table.table_data raw.entries = none := by
      cases hp : processEntries sep raw.str_table.table_data raw.entries with
      | none => rfl
      | some pes =>
        exact absurd ((processEntries_isSome_iff sep _ _).1 (by simp [hp])) hbad
    unfold vtPackNew
    simp only [h, hnone]

/-- Claim C10, witness: on `srcC`, whose pool "ab" has no NUL terminator
for the referenced name string, the whole call panics. -/
theorem vtpack_C10_nul_termination_witness :
    vtPackNew 47 srcC = VtPackNewResult.panicked :=
  (vtpack_C10_nul_termination 47 srcC rawC (by decide)).2 (by decide)

/-! ## Claim C9 -/

/-- Claim C9: two archive images that encode the same entry count, the
same pool at the same resolved pool offset, and the same entry records —
one with V1 field widths, one with V2 field widths — both decode
successfully and produce the identical processed entry list. -/
theorem vtpack_C9_version_equivalence (sep poolOff : Nat) (pool : List Nat)
    (entries : List VtPackRawEntryHeader) (pes : List VtPackProcessedEntry)
    (hoff : 46 ≤ poolOff) (ho : poolOff < 4294967296)
    (hpl : pool.length < 4294967296) (hc : entries.length < 4294967296)
    (hwf : ∀ e ∈ entries, WFEntry e)
    (hp : processEntries sep pool entries = some pes) :
    vtPackNew sep (encodeArchive VtPackVersion.Ver1 poolOff pool entries) =
      VtPackNewResult.ok ⟨rawOf VtPackVersion.Ver1 poolOff pool entries, pes⟩ ∧
    vtPackNew sep (encodeArchive VtPackVersion.Ver2 poolOff pool entries) =
      VtPackNewResult.ok ⟨rawOf VtPackVersion.Ver2 poolOff pool entries, pes⟩ := by
  have hd1 := decodeRawFile_enc VtPackVersion.Ver1 poolOff pool entries
    (show headerLen VtPackVersion.Ver1 ≤ poolOff from by
      show (34 : Nat) ≤ poolOff
      omega) ho hpl hc hwf
  have hd2 := decodeRawFile_enc VtPackVersion.Ver2 poolOff pool entries
    (show headerLen VtPackVersion.Ver2 ≤ poolOff from by
      show (46 : Nat) ≤ poolOff
      omega) ho hpl hc hwf
  exact ⟨vtPackNew_eq sep _ _ pes hd1 hp, vtPackNew_eq sep _ _ pes hd2 hp⟩

/-- Claim C9, witness: the statement at a one-entry archive with pool
"a NUL" at offset 46 for both versions. -/
theorem vtpack_C9_version_equivalence_witness :
    vtPackNew 47 (encodeArchive VtPackVersion.Ver1 46 [97, 0] [⟨0, 4294967295, 0, 1, 0, 60, 0, 0⟩]) =
      VtPackNewResult.ok ⟨rawOf VtPackVersion.Ver1 46 [97, 0] [⟨0, 4294967295, 0, 1, 0, 60, 0, 0⟩],
        [⟨true, [97], 1, 60⟩]⟩ ∧
    vtPackNew 47 (encodeArchive VtPackVersion.Ver2 46 [97, 0] [⟨0, 4294967295, 0, 1, 0, 60, 0, 0⟩]) =
      VtPackNewResult.ok ⟨rawOf VtPackVersion.Ver2 46 [97, 0] [⟨0, 4294967295, 0, 1, 0, 60, 0, 0⟩],
        [⟨true, [97], 1, 60⟩]⟩ :=
  vtpack_C9_version_equivalence 47 46 [97, 0] [⟨0, 4294967295, 0, 1, 0, 60, 0, 0⟩]
    [⟨true, [97], 1, 60⟩] (by decide) (by decide) (by decide) (by decide) (by decide) (by decide)
